import Mathlib

/-!
Verification of the in-memory person store and its HTTP handlers
(`src/routes.rs` of the rust-rocket CRUD service).

The store is an `RwLock<Vec<Person>>`; each handler acquires the lock,
performs a bounded, purely sequential operation on the vector, and returns
a status (and possibly a body).  We embed the guarded collection as a
`List Person` and each handler as a pure function from the incoming data
and the pre-lock collection to its response together with the post-lock
collection.  Lock acquisition/poisoning (the 500 path) is concurrency
behaviour outside the shallow embedding; every theorem below speaks about
the code that runs once the lock is held, which is exactly the code of the
handler bodies.
-/

namespace RocketPersons

/-- Modelled from the spec: the entity record defined in `src/person.rs`,
which is not among the provided sources.  Spec §3: `id` is an unsigned
integer (the sole identity key), `name` is text, `age` is an integer,
`date` is a date/time-stamp carried verbatim as a string.  `id` is a `u32`
in the route signatures; no arithmetic is performed on it, so `Nat` is a
faithful carrier of its values. -/
structure Person where
  id : Nat
  name : String
  age : Int
  date : String
deriving DecidableEq, Repr

/-- Embedding of `health` (`GET /health`): returns the literal body. -/
def health : String := "OK"

/-- Embedding of `persons` (`GET /api/persons`): under the read lock,
`Ok(Json(persons.clone()))` — a clone of the full collection. -/
def persons (state : List Person) : List Person :=
  state

/-- Embedding of `single_person` (`GET /api/person/<id>`): under the read
lock, `persons_guard.iter().find(|t| t.id == id)`; `Some` becomes a 200
with the cloned record, `None` becomes `Err(Status::NotFound)` (404). -/
def single_person (id : Nat) (state : List Person) : Except Nat Person :=
  match state.find? (fun t => t.id == id) with
  | some p => .ok p
  | none => .error 404

/-- Embedding of `add_person` (`POST /api/person`): under the write lock,
`persons_guard.iter().any(|t| t.id == person.id)`; if no record matches,
push the record and return `Ok(Status::Created)` (201), else
`Err(Status::Conflict)` (409) with the vector untouched.  The result pairs
the handler's return value with the post-lock collection. -/
def add_person (person : Person) (state : List Person) :
    Except Nat Nat × List Person :=
  if !(state.any (fun t => t.id == person.id)) then
    (.ok 201, state ++ [person])
  else
    (.error 409, state)

/-- The in-place field overwrite of `update_person`:
`p.age = person.age; p.date = person.date; p.name = person.name` —
the matched record keeps its `id`. -/
def applyUpdate (person p : Person) : Person :=
  Person.mk p.id person.name person.age person.date

/-- Embedding of `iter_mut().find(|t| t.id == person.id)` followed by the
in-place overwrite: rewrite the first record whose `id` matches, returning
`none` when no record matches. -/
def updateFirst (person : Person) : List Person → Option (List Person)
  | [] => none
  | t :: ts =>
    if t.id == person.id then
      some (applyUpdate person t :: ts)
    else
      (updateFirst person ts).map (fun r => t :: r)

/-- Embedding of `update_person` (`PUT /api/person`): under the write lock,
find the first record whose `id` equals the body's `id` and overwrite its
`age`, `date` and `name`; `Ok(Status::NoContent)` (204) on a match,
`Err(Status::NotFound)` (404) with the vector untouched otherwise. -/
def update_person (person : Person) (state : List Person) :
    Except Nat Nat × List Person :=
  match updateFirst person state with
  | some s => (.ok 204, s)
  | none => (.error 404, state)

/-- Embedding of `Iterator::position`: index of the first element
satisfying the predicate. -/
def position (p : Person → Bool) : List Person → Option Nat
  | [] => none
  | t :: ts => if p t then some 0 else (position p ts).map (· + 1)

/-- Embedding of `Vec::remove(index)`: remove the element at the index,
shifting all subsequent elements left (order-preserving, not swap-remove). -/
def removeAt : List Person → Nat → List Person
  | [], _ => []
  | _ :: ts, 0 => ts
  | t :: ts, n + 1 => t :: removeAt ts n

/-- Embedding of `delete_person` (`DELETE /api/person/<id>`): under the
write lock, `persons_guard.iter().position(|t| t.id == id)`; on `Some i`
call `remove(i)` and return `Ok(Status::NoContent)` (204), on `None`
return `Err(Status::NotFound)` (404) with the vector untouched. -/
def delete_person (id : Nat) (state : List Person) :
    Except Nat Nat × List Person :=
  match position (fun t => t.id == id) state with
  | some index => (.ok 204, removeAt state index)
  | none => (.error 404, state)

/-- The requests the verified routes serve (the landing page, which reads
the wall clock, is outside the embedding). -/
inductive Request where
  | health
  | listPersons
  | getPerson (id : Nat)
  | createPerson (p : Person)
  | updatePerson (p : Person)
  | deletePerson (id : Nat)
deriving DecidableEq, Repr

/-- The response as it leaves the HTTP layer: a status code and the body
shape the handler's return type serialises to (`&'static str`, a JSON
record, a JSON array, or no body at all for bare `Status` returns). -/
inductive Reply where
  | text (status : Nat) (body : String)
  | jsonPerson (status : Nat) (p : Person)
  | jsonPersons (status : Nat) (ps : List Person)
  | statusOnly (status : Nat)
deriving DecidableEq, Repr

/-- One request dispatched to its handler: the reply, and the collection
as the handler leaves it when the lock is released.  Read handlers hold
the read lock and cannot touch the collection; write handlers return the
guard's final contents. -/
def handle : Request → List Person → Reply × List Person
  | .health, s => (.text 200 health, s)
  | .listPersons, s => (.jsonPersons 200 (persons s), s)
  | .getPerson i, s =>
    match single_person i s with
    | .ok p => (.jsonPerson 200 p, s)
    | .error c => (.statusOnly c, s)
  | .createPerson p, s =>
    match add_person p s with
    | (.ok c, s') => (.statusOnly c, s')
    | (.error c, s') => (.statusOnly c, s')
  | .updatePerson p, s =>
    match update_person p s with
    | (.ok c, s') => (.statusOnly c, s')
    | (.error c, s') => (.statusOnly c, s')
  | .deletePerson i, s =>
    match delete_person i s with
    | (.ok c, s') => (.statusOnly c, s')
    | (.error c, s') => (.statusOnly c, s')

/-- The collection invariant of spec §3: at most one record per `id`. -/
def idsNodup (s : List Person) : Prop :=
  (s.map Person.id).Nodup

instance (s : List Person) : Decidable (idsNodup s) := by
  unfold idsNodup; infer_instance

/-- A sequence of Create operations applied in order; a rejected Create
leaves the collection as it was (the handler's error path). -/
def applyCreates (ps : List Person) (s : List Person) : List Person :=
  ps.foldl (fun st p => (add_person p st).2) s

/-- A Create whose `id` is fresh takes the `push` branch: status 201 and
the record appended at the end. -/
lemma add_person_of_fresh (p : Person) (s : List Person)
    (h : ∀ q ∈ s, q.id ≠ p.id) :
    add_person p s = (.ok 201, s ++ [p]) := by
  have hany : s.any (fun t => t.id == p.id) = false := by
    rw [List.any_eq_false]
    intro q hq
    simpa using h q hq
  simp [add_person, hany]

/-- A Create whose `id` already occurs takes the conflict branch: status
409 and the collection untouched. -/
lemma add_person_of_dup (p q : Person) (s : List Person)
    (hq : q ∈ s) (hid : q.id = p.id) :
    add_person p s = (.error 409, s) := by
  have hany : s.any (fun t => t.id == p.id) = true := by
    simp only [List.any_eq_true]
    exact ⟨q, hq, by simp [hid]⟩
  simp [add_person, hany]

/-- One Create step preserves uniqueness of the stored ids. -/
lemma idsNodup_add (p : Person) (s : List Person) (h : idsNodup s) :
    idsNodup (add_person p s).2 := by
  by_cases hfresh : ∀ q ∈ s, q.id ≠ p.id
  · rw [add_person_of_fresh p s hfresh]
    simp only [idsNodup, List.map_append, List.map_cons, List.map_nil] at h ⊢
    rw [List.nodup_append]
    refine ⟨h, List.nodup_singleton _, ?_⟩
    intro x hx hx1
    rcases List.mem_map.mp hx with ⟨q, hq, rfl⟩
    rcases List.mem_singleton.mp hx1 with h1
    exact hfresh q hq h1
  · push_neg at hfresh
    rcases hfresh with ⟨q, hq, hid⟩
    rw [add_person_of_dup p q s hq hid]
    exact h

/-- Characterisation of a successful `iter_mut().find` + overwrite: the
collection splits as `a ++ t :: b` where `t` is the first record whose
`id` matches, and the result replaces `t` by the overwritten record. -/
lemma updateFirst_spec (p : Person) :
    ∀ (s s' : List Person), updateFirst p s = some s' →
    ∃ a t b, s = a ++ t :: b ∧ (∀ q ∈ a, q.id ≠ p.id) ∧ t.id = p.id ∧
      s' = a ++ applyUpdate p t :: b
  | [], s', h => by simp [updateFirst] at h
  | t :: ts, s', h => by
    by_cases ht : t.id = p.id
    · refine ⟨[], t, ts, by simp, by simp, ht, ?_⟩
      simp only [updateFirst, beq_iff_eq, if_pos ht, Option.some_inj] at h
      simp [← h]
    · simp only [updateFirst, beq_iff_eq, if_neg ht, Option.map_eq_some'] at h
      rcases h with ⟨r, hr, rfl⟩
      rcases updateFirst_spec p ts r hr with ⟨a, u, b, rfl, ha, hu, rfl⟩
      exact ⟨t :: a, u, b, rfl, by simpa [ht] using ha, hu, rfl⟩

/-- Characterisation of a successful `position` + `remove`: the collection
splits as `a ++ t :: b` where `t` is the first matching record, the index
is `a.length`, and the removal yields `a ++ b`. -/
lemma position_remove_spec (pr : Person → Bool) :
    ∀ (s : List Person) (j : Nat), position pr s = some j →
    ∃ a t b, s = a ++ t :: b ∧ a.length = j ∧ pr t = true ∧
      (∀ q ∈ a, pr q = false) ∧ removeAt s j = a ++ b
  | [], j, h => by simp [position] at h
  | t :: ts, j, h => by
    by_cases ht : pr t = true
    · simp only [position, if_pos ht, Option.some_inj] at h
      exact ⟨[], t, ts, by simp, by simp [← h], ht, by simp, by simp [← h, removeAt]⟩
    · simp only [position, if_neg ht, Option.map_eq_some'] at h
      rcases h with ⟨j', hj', rfl⟩
      rcases position_remove_spec pr ts j' hj' with ⟨a, u, b, rfl, hlen, hu, ha, hrem⟩
      refine ⟨t :: a, u, b, rfl, by simp [hlen], hu, ?_, ?_⟩
      · intro q hq
        rcases List.mem_cons.mp hq with rfl | hq
        · exact Bool.eq_false_iff.mpr ht
        · exact ha q hq
      · simp [removeAt, hrem]

/-- When no record matches, `position` returns `None`. -/
lemma position_eq_none (pr : Person → Bool) :
    ∀ s : List Person, position pr s = none ↔ ∀ q ∈ s, pr q = false
  | [] => by simp [position]
  | t :: ts => by
    by_cases ht : pr t = true
    · simp [position, ht]
    · have ht' : pr t = false := Bool.eq_false_iff.mpr ht
      simp [position, ht', Option.map_eq_none', position_eq_none pr ts]

/-- Any sequence of Create operations keeps the stored ids pairwise
distinct. -/
lemma idsNodup_applyCreates :
    ∀ (ps s : List Person), idsNodup s → idsNodup (applyCreates ps s)
  | [], _, h => h
  | q :: qs, s, h => idsNodup_applyCreates qs (add_person q s).2 (idsNodup_add q s h)

/-- C1: starting from a collection with pairwise-distinct ids, no sequence
of Create operations ever produces two records with the same id, and a
Create whose record's id already occurs returns the conflict outcome (409)
and leaves the collection exactly unchanged. -/
theorem create_sequences_keep_ids_unique (ps s : List Person)
    (h : idsNodup s) (p : Person) (s' : List Person)
    (hdup : ∃ q ∈ s', q.id = p.id) :
    idsNodup (applyCreates ps s) ∧ add_person p s' = (.error 409, s') := by
  refine ⟨idsNodup_applyCreates ps s h, ?_⟩
  rcases hdup with ⟨q, hq, hid⟩
  exact add_person_of_dup p q s' hq hid

/-- Witness for C1 at a concrete run: two fresh creates followed by a
duplicate-id create, and a direct duplicate create. -/
theorem create_sequences_keep_ids_unique_witness :
    idsNodup (applyCreates
      [Person.mk 1 "a" 20 "d1", Person.mk 2 "b" 30 "d2",
        Person.mk 1 "c" 40 "d3"] []) ∧
    add_person (Person.mk 7 "x" 1 "d4") [Person.mk 7 "y" 2 "d5"] =
      (.error 409, [Person.mk 7 "y" 2 "d5"]) :=
  create_sequences_keep_ids_unique _ [] (by decide) _ _
    ⟨Person.mk 7 "y" 2 "d5", List.mem_cons_self _ _, rfl⟩

/-- C2: when Update succeeds, the collection splits as `a ++ t :: b` with
`t` the first record whose id equals the incoming id; afterwards that slot
holds the incoming name/age/date under the pre-update id `t.id`, every
other record is untouched, and the stored id sequence is unchanged. -/
theorem update_preserves_identity (p : Person) (s : List Person)
    (h : (update_person p s).1 = .ok 204) :
    (update_person p s).2.map Person.id = s.map Person.id ∧
    ∃ a t b, s = a ++ t :: b ∧ (∀ q ∈ a, q.id ≠ p.id) ∧ t.id = p.id ∧
      (update_person p s).2 = a ++ Person.mk t.id p.name p.age p.date :: b := by
  rcases hu : updateFirst p s with _ | s'
  · exfalso
    simp [update_person, hu] at h
  · have hpost : (update_person p s).2 = s' := by simp [update_person, hu]
    rcases updateFirst_spec p s s' hu with ⟨a, t, b, rfl, ha, ht, rfl⟩
    exact ⟨by simp [hpost, applyUpdate], a, t, b, rfl, ha, ht,
      by simp [hpost, applyUpdate]⟩

/-- Witness for C2 at a concrete input: updating id 1 in a two-record
collection. -/
theorem update_preserves_identity_witness :
    (update_person (Person.mk 1 "Y" 31 "d9")
        [Person.mk 1 "X" 30 "d1", Person.mk 2 "Z" 40 "d2"]).2.map Person.id =
      [Person.mk 1 "X" 30 "d1", Person.mk 2 "Z" 40 "d2"].map Person.id ∧
    ∃ a t b, [Person.mk 1 "X" 30 "d1", Person.mk 2 "Z" 40 "d2"] = a ++ t :: b ∧
      (∀ q ∈ a, q.id ≠ (Person.mk 1 "Y" 31 "d9").id) ∧
      t.id = (Person.mk 1 "Y" 31 "d9").id ∧
      (update_person (Person.mk 1 "Y" 31 "d9")
          [Person.mk 1 "X" 30 "d1", Person.mk 2 "Z" 40 "d2"]).2 =
        a ++ Person.mk t.id (Person.mk 1 "Y" 31 "d9").name
          (Person.mk 1 "Y" 31 "d9").age (Person.mk 1 "Y" 31 "d9").date :: b :=
  update_preserves_identity _ _ rfl

/-- C3: on a collection with pairwise-distinct ids that contains a record
with the given id, Delete succeeds with 204, afterwards no record with
that id remains, the count drops by exactly one, and the survivors are the
concatenation of the untouched prefix and suffix around the removed
record (order-preserving removal). -/
theorem delete_is_exact (i : Nat) (s : List Person)
    (hnd : idsNodup s) (hex : ∃ q ∈ s, q.id = i) :
    (delete_person i s).1 = .ok 204 ∧
    (∀ q ∈ (delete_person i s).2, q.id ≠ i) ∧
    (delete_person i s).2.length + 1 = s.length ∧
    ∃ a t b, s = a ++ t :: b ∧ t.id = i ∧ (delete_person i s).2 = a ++ b := by
  rcases hp : position (fun t => t.id == i) s with _ | j
  · exfalso
    rcases hex with ⟨q, hq, hid⟩
    have := (position_eq_none _ s).mp hp q hq
    simp [hid] at this
  · rcases position_remove_spec _ s j hp with ⟨a, t, b, hs, hlen, hpt, ha, hrem⟩
    have hres : (delete_person i s).1 = .ok 204 := by simp [delete_person, hp]
    have hpost : (delete_person i s).2 = a ++ b := by
      simp [delete_person, hp, hrem]
    have htid : t.id = i := by simpa using hpt
    have hbid : ∀ q ∈ b, q.id ≠ i := by
      subst hs
      simp only [idsNodup, List.map_append, List.map_cons] at hnd
      have hnd2 := (List.nodup_append.mp hnd).2.1
      have := (List.nodup_cons.mp hnd2).1
      intro q hq hqi
      exact this (htid ▸ hqi ▸ List.mem_map_of_mem Person.id hq)
    refine ⟨hres, ?_, ?_, a, t, b, hs, htid, hpost⟩
    · intro q hq
      rcases List.mem_append.mp (hpost ▸ hq) with hqa | hqb
      · intro hqi
        have := ha q hqa
        simp [hqi] at this
      · exact hbid q hqb
    · rw [hpost, hs]
      simp [List.length_append]
      omega

/-- Witness for C3 at a concrete input: deleting id 2 from a three-record
collection. -/
theorem delete_is_exact_witness :
    (delete_person 2 [Person.mk 1 "a" 20 "d1", Person.mk 2 "b" 30 "d2",
        Person.mk 3 "c" 40 "d3"]).1 = .ok 204 ∧
    (∀ q ∈ (delete_person 2 [Person.mk 1 "a" 20 "d1", Person.mk 2 "b" 30 "d2",
        Person.mk 3 "c" 40 "d3"]).2, q.id ≠ 2) ∧
    (delete_person 2 [Person.mk 1 "a" 20 "d1", Person.mk 2 "b" 30 "d2",
        Person.mk 3 "c" 40 "d3"]).2.length + 1 =
      [Person.mk 1 "a" 20 "d1", Person.mk 2 "b" 30 "d2",
        Person.mk 3 "c" 40 "d3"].length ∧
    ∃ a t b, [Person.mk 1 "a" 20 "d1", Person.mk 2 "b" 30 "d2",
        Person.mk 3 "c" 40 "d3"] = a ++ t :: b ∧ t.id = 2 ∧
      (delete_person 2 [Person.mk 1 "a" 20 "d1", Person.mk 2 "b" 30 "d2",
        Person.mk 3 "c" 40 "d3"]).2 = a ++ b :=
  delete_is_exact 2 _ (by decide)
    ⟨Person.mk 2 "b" 30 "d2", List.mem_cons_of_mem _ (List.mem_cons_self _ _), rfl⟩

/-- C4: a Create whose record's id occurs in no stored record succeeds
with status 201 and no body, and the new collection is the old one with
the record appended at the end. -/
theorem create_fresh_appends (p : Person) (s : List Person)
    (h : ∀ q ∈ s, q.id ≠ p.id) :
    handle (.createPerson p) s = (.statusOnly 201, s ++ [p]) := by
  simp [handle, add_person_of_fresh p s h]

/-- Witness for C4 at a concrete input: creating id 2 alongside id 1. -/
theorem create_fresh_appends_witness :
    handle (.createPerson (Person.mk 2 "b" 30 "d2")) [Person.mk 1 "a" 20 "d1"] =
      (.statusOnly 201, [Person.mk 1 "a" 20 "d1", Person.mk 2 "b" 30 "d2"]) :=
  create_fresh_appends _ _ (by decide)

/-- C5: Get returns the first record in collection order whose id equals
the argument when one exists, and the not-found outcome (404) when no
record's id equals the argument. -/
theorem get_returns_first_match (i : Nat) (s : List Person) :
    match single_person i s with
    | .ok p => p.id = i ∧ ∃ a b, s = a ++ p :: b ∧ ∀ q ∈ a, q.id ≠ i
    | .error c => c = 404 ∧ ∀ q ∈ s, q.id ≠ i := by
  induction s with
  | nil => simp [single_person, List.find?]
  | cons t ts ih =>
    by_cases ht : t.id = i
    · have hb : (t.id == i) = true := by simp [ht]
      have hs : single_person i (t :: ts) = .ok t := by
        simp [single_person, List.find?, hb]
      simp only [hs]
      exact ⟨ht, [], ts, rfl, by simp⟩
    · have hb : (t.id == i) = false := by simp [ht]
      have hs : single_person i (t :: ts) = single_person i ts := by
        simp [single_person, List.find?, hb]
      rw [hs]
      revert ih
      cases single_person i ts with
      | ok p =>
        rintro ⟨hp, a, b, rfl, ha⟩
        refine ⟨hp, t :: a, b, rfl, ?_⟩
        intro q hq
        rcases List.mem_cons.mp hq with rfl | hq
        · exact ht
        · exact ha q hq
      | error c =>
        rintro ⟨hc, hall⟩
        refine ⟨hc, ?_⟩
        intro q hq
        rcases List.mem_cons.mp hq with rfl | hq
        · exact ht
        · exact hall q hq

/-- Witness for C5 at a concrete input: looking up id 2 in a two-record
collection. -/
theorem get_returns_first_match_witness :
    match single_person 2 [Person.mk 1 "a" 20 "d1", Person.mk 2 "b" 30 "d2"] with
    | .ok p => p.id = 2 ∧
        ∃ a b, [Person.mk 1 "a" 20 "d1", Person.mk 2 "b" 30 "d2"] = a ++ p :: b ∧
          ∀ q ∈ a, q.id ≠ 2
    | .error c => c = 404 ∧
        ∀ q ∈ [Person.mk 1 "a" 20 "d1", Person.mk 2 "b" 30 "d2"], q.id ≠ 2 :=
  get_returns_first_match 2 _

/-- C6: whenever a write operation fails — Create with a conflict, Update
with not-found, or Delete with not-found — the collection after the
operation is exactly the collection before it. -/
theorem write_failures_leave_state_unchanged
    (p1 p2 : Person) (i3 : Nat) (s1 s2 s3 : List Person) (c1 c2 c3 : Nat)
    (h1 : (add_person p1 s1).1 = .error c1)
    (h2 : (update_person p2 s2).1 = .error c2)
    (h3 : (delete_person i3 s3).1 = .error c3) :
    (add_person p1 s1).2 = s1 ∧ (update_person p2 s2).2 = s2 ∧
      (delete_person i3 s3).2 = s3 := by
  refine ⟨?_, ?_, ?_⟩
  · by_cases hany : s1.any (fun t => t.id == p1.id) = true
    · simp [add_person, hany]
    · exfalso
      simp [add_person, Bool.eq_false_iff.mpr hany] at h1
  · rcases hu : updateFirst p2 s2 with _ | s'
    · simp [update_person, hu]
    · exfalso
      simp [update_person, hu] at h2
  · rcases hp : position (fun t => t.id == i3) s3 with _ | j
    · simp [delete_person, hp]
    · exfalso
      simp [delete_person, hp] at h3

/-- Witness for C6 at concrete inputs: a conflicting create, an update of
a missing id, and a delete of a missing id. -/
theorem write_failures_leave_state_unchanged_witness :
    (add_person (Person.mk 1 "a" 0 "d1") [Person.mk 1 "b" 1 "d2"]).2 =
      [Person.mk 1 "b" 1 "d2"] ∧
    (update_person (Person.mk 5 "c" 2 "d3") [Person.mk 1 "b" 1 "d2"]).2 =
      [Person.mk 1 "b" 1 "d2"] ∧
    (delete_person 9 [Person.mk 1 "b" 1 "d2"]).2 = [Person.mk 1 "b" 1 "d2"] :=
  write_failures_leave_state_unchanged _ _ 9 _ _ _ 409 404 404 rfl rfl rfl

/-- C10: Create's duplicate rejection compares only the id field: a record
with a fresh id is accepted and appended even when its name, age and date
all coincide with those of a stored record. -/
theorem create_checks_only_id (p q : Person) (s : List Person)
    (hq : q ∈ s) (hname : q.name = p.name) (hage : q.age = p.age)
    (hdate : q.date = p.date) (hfresh : ∀ r ∈ s, r.id ≠ p.id) :
    add_person p s = (.ok 201, s ++ [p]) :=
  add_person_of_fresh p s hfresh

/-- Witness for C10 at a concrete input: id 2 with the same name, age and
date as the stored id 1 is still accepted. -/
theorem create_checks_only_id_witness :
    add_person (Person.mk 2 "a" 20 "d1") [Person.mk 1 "a" 20 "d1"] =
      (.ok 201, [Person.mk 1 "a" 20 "d1", Person.mk 2 "a" 20 "d1"]) :=
  create_checks_only_id (Person.mk 2 "a" 20 "d1") (Person.mk 1 "a" 20 "d1") _
    (List.mem_cons_self _ _) rfl rfl rfl (by decide)

/-- C7: List succeeds with a copy of the full collection — every stored
record, in collection order, nothing added, dropped or reordered — and
status 200. -/
theorem list_returns_full_collection (s : List Person) :
    handle .listPersons s = (.jsonPersons 200 s, s) ∧ persons s = s := by
  exact ⟨rfl, rfl⟩

/-- C8: the read operations List and Get leave the collection exactly
unchanged: the store state after the call equals the state before it. -/
theorem reads_leave_state_unchanged (i : Nat) (s : List Person) :
    (handle .listPersons s).2 = s ∧ (handle (.getPerson i) s).2 = s := by
  refine ⟨rfl, ?_⟩
  cases h : single_person i s <;> simp [handle, h]

/-- C9: Health always succeeds with status 200 and the literal body "OK",
for every store state. -/
theorem health_always_ok (s : List Person) :
    handle .health s = (.text 200 "OK", s) := by
  rfl

end RocketPersons
